import Mathlib

/-!
Verification of the Project Persistence & Conversation Synchronization Engine
of the laravel-assist-ai repository, as a shallow embedding in Lean 4.

The definitions below are direct translations of the TypeScript source:
* src/services/geminiService.ts : retryOperation and the quota-error test;
* src/App.tsx : handleMergeProjects, handleSendMessage (placeholder creation,
  chunk accumulation, failure cleanup), createNewProject, saveCurrentProjectToDb,
  handleFileUpload (record update and rename rule).

JavaScript strings are modelled as Lean Strings (with explicit char-list
helpers for "includes", "startsWith" and first-occurrence "replace"),
JS numbers holding Date.now() timestamps as Nat, optional record fields as
Option, and the stateful stream loop as a fold over the list of chunks.
-/

/-! ### Character-list string helpers (JS String.includes / startsWith / replace) -/

/-- Boolean test that a char list is a prefix of another (structural). -/
def prefixB : List Char → List Char → Bool
  | [], _ => true
  | _ :: _, [] => false
  | a :: as, b :: bs => a == b && prefixB as bs

/-- Boolean test that a char list occurs inside another (JS `includes`). -/
def infixB (p : List Char) : List Char → Bool
  | [] => p.isEmpty
  | c :: cs => prefixB p (c :: cs) || infixB p cs

/-- JS `s.includes(pat)`. -/
def containsSub (s pat : String) : Bool :=
  infixB pat.data s.data

/-- JS `s.startsWith(pre)`. -/
def jsStartsWith (s pre : String) : Bool :=
  prefixB pre.data s.data

/-- Core of JS `String.replace` with a string pattern: replace the first
occurrence of `p` by `r`; leave the string unchanged when `p` does not occur. -/
def replaceFirstAux (p r : List Char) : List Char → List Char
  | [] => if prefixB p [] then r else []
  | c :: cs =>
    if prefixB p (c :: cs) then r ++ (c :: cs).drop p.length
    else c :: replaceFirstAux p r cs

/-- JS `s.replace(pat, repl)` with a plain-string pattern (first occurrence only). -/
def jsReplaceFirst (s pat repl : String) : String :=
  ⟨replaceFirstAux pat.data repl.data s.data⟩

/-! ### Data model (src/types.ts) -/

/-- The `Sender` enum of src/types.ts. -/
inductive Sender where
  | USER
  | AI
  | SYSTEM
deriving DecidableEq

/-- The `Message` interface of src/types.ts.  The optional JS field
`isThinking?` is falsy when absent, so it is modelled as a `Bool` defaulting
to `false`; `estimatedTime?` is modelled as an `Option`. -/
structure Message where
  id : String
  text : String
  sender : Sender
  timestamp : Nat
  isThinking : Bool := false
  estimatedTime : Option String := none
deriving DecidableEq

/-- The `ExtractedFile` interface of src/types.ts. -/
structure ExtractedFile where
  path : String
  content : String
deriving DecidableEq

/-- One project snapshot handed to the merge: the `{messages, files}` records
built from the selected projects in `handleMergeProjects` (src/App.tsx). -/
structure Snapshot where
  messages : List Message
  files : List ExtractedFile
deriving DecidableEq

/-- The `Project` interface of src/types.ts.  `filesLoadedCount?` is a
genuinely optional field, hence an `Option Nat`. -/
structure Project where
  id : String
  name : String
  createdAt : Nat
  fileContextSummary : Option String := none
  filesLoadedCount : Option Nat := none
  savedMessages : List Message := []
  savedFiles : List ExtractedFile := []
deriving DecidableEq

/-! ### Retry policy (src/services/geminiService.ts, retryOperation) -/

/-- The error value thrown by the generation client: `status` and `message`
are accessed with optional chaining in the source, so both may be absent.
An absent message behaves like one in which nothing occurs. -/
structure JsError where
  status : Option Nat := none
  message : String := ""
deriving DecidableEq

/-- The quota test of retryOperation:
`error?.status === 429 || error?.message?.includes('429') ||
 error?.message?.includes('Quota exceeded') ||
 error?.message?.includes('RESOURCE_EXHAUSTED')`. -/
def isQuotaError (e : JsError) : Bool :=
  e.status == some 429
    || containsSub e.message "429"
    || containsSub e.message "Quota exceeded"
    || containsSub e.message "RESOURCE_EXHAUSTED"

/-- Shallow embedding of `retryOperation` (src/services/geminiService.ts).
The wrapped operation is modelled as a function from the attempt index to the
outcome of that invocation.  The result records the final outcome, the total
number of attempts made, and the list of delays waited (in ms), in order.
`retries` and `delay` evolve exactly as in the source: on a quota error with
retries remaining the call waits `delay`, then recurses with `retries - 1`
and `delay * 2`. -/
def retryOperation {T : Type} (op : Nat → Except JsError T) :
    Nat → Nat → Nat → Except JsError T × Nat × List Nat
  | 0, _, attempt =>
    match op attempt with
    | Except.ok v => (Except.ok v, attempt + 1, [])
    | Except.error e => (Except.error e, attempt + 1, [])
  | r + 1, delay, attempt =>
    match op attempt with
    | Except.ok v => (Except.ok v, attempt + 1, [])
    | Except.error e =>
      if isQuotaError e then
        let res := retryOperation op r (delay * 2) (attempt + 1)
        (res.1, res.2.1, delay :: res.2.2)
      else (Except.error e, attempt + 1, [])

/-- `retryOperation` at its default arguments (`retries = 3`, `delay = 2000`),
which is how both exported service functions invoke it. -/
def retryOperationDefault {T : Type} (op : Nat → Except JsError T) :
    Except JsError T × Nat × List Nat :=
  retryOperation op 3 2000 0

/-! ### Merge engine (src/App.tsx, handleMergeProjects) -/

/-- One `fileMap.set(f.path, f)` step.  JS `Map.set` updates the value in
place when the key is present (keeping its insertion position) and appends
the entry otherwise; `Array.from(map.values())` then lists the values in
insertion order, which the association list realizes directly. -/
def mapSet (acc : List ExtractedFile) (f : ExtractedFile) : List ExtractedFile :=
  if acc.any (fun g => g.path == f.path) then
    acc.map (fun g => if g.path == f.path then f else g)
  else acc ++ [f]

/-- The file half of the merge: iterate the snapshots in input order and
insert every file into the path-keyed map (last write wins). -/
def mergeFiles (sources : List Snapshot) : List ExtractedFile :=
  ((sources.map Snapshot.files).flatten).foldl mapSet []

/-- The comparator `(a, b) => a.timestamp - b.timestamp` as an ordering
relation on messages. -/
def tsLe (a b : Message) : Prop :=
  a.timestamp ≤ b.timestamp

instance : DecidableRel tsLe :=
  fun a b => Nat.decLe a.timestamp b.timestamp

instance : IsTotal Message tsLe :=
  ⟨fun a b => Nat.le_total a.timestamp b.timestamp⟩

instance : IsTrans Message tsLe :=
  ⟨fun _ _ _ h h2 => Nat.le_trans h h2⟩

/-- JS `Array.prototype.sort` with a consistent comparator is a stable sort
(ECMAScript 2019), which `List.insertionSort` realizes: equal-timestamp
messages keep their relative order. -/
def sortByTs (l : List Message) : List Message :=
  List.insertionSort tsLe l

/-- The synthetic SYSTEM merge-marker message appended after sorting.
`n` is the number of merged projects, `now` the `Date.now()` at merge time. -/
def mergeMarker (n : Nat) (markerId : String) (now : Nat) : Message :=
  { id := markerId
    text := "--- プロジェクト結合: " ++ toString n ++ "個のプロジェクト履歴を統合しました ---"
    sender := Sender.SYSTEM
    timestamp := now }

/-- The pure core of `handleMergeProjects`: concatenate all message lists,
stable-sort by timestamp, push the marker; merge the files by path. -/
def mergeProjects (sources : List Snapshot) (markerId : String) (now : Nat) : Snapshot :=
  { messages := sortByTs ((sources.map Snapshot.messages).flatten) ++ [mergeMarker sources.length markerId now]
    files := mergeFiles sources }

/-- The new Project record persisted by `handleMergeProjects`: JS
`newName || Merged Project N` treats the empty string as falsy. -/
def mergedProjectRecord (pid newName : String) (nProjects now : Nat) (snap : Snapshot) : Project :=
  { id := pid
    name := if newName == "" then "Merged Project " ++ toString (nProjects + 1) else newName
    createdAt := now
    savedMessages := snap.messages
    savedFiles := snap.files
    filesLoadedCount := some snap.files.length }

/-! ### Session controller records (src/App.tsx) -/

/-- The fixed initial message of `createNewProject` (note the constant id
`welcome` in the source). -/
def welcomeMessage (now : Nat) : Message :=
  { id := "welcome"
    text := "新しいプロジェクトを作成しました。ZIPファイルをアップロードして解析を開始するか、Laravelについて質問してください。"
    sender := Sender.AI
    timestamp := now }

/-- The Project record persisted by `createNewProject`: `savedMessages` holds
the initial message, `savedFiles` is empty, and `filesLoadedCount` is not set
in the object literal, so the written record lacks the field. -/
def createNewProjectRecord (pid : String) (nProjects now : Nat) : Project :=
  { id := pid
    name := "Project " ++ toString (nProjects + 1)
    createdAt := now
    savedMessages := [welcomeMessage now]
    savedFiles := [] }

/-- The record written by `saveCurrentProjectToDb` (the project-switch
flush): full overwrite of the conversation and file set, with
`filesLoadedCount` recomputed from the files ref. -/
def saveCurrentProjectRecord (meta : Project) (msgs : List Message)
    (files : List ExtractedFile) : Project :=
  { meta with
    savedMessages := msgs
    savedFiles := files
    filesLoadedCount := some files.length }

/-- The record written by `handleFileUpload` after a successful archive
extraction: the display name becomes the archive filename with the first
occurrence of `.zip` removed when the current name still starts with
`Project ` (the default), and is kept otherwise. -/
def uploadProjectRecord (proj : Project) (fileName : String)
    (files : List ExtractedFile) (msgs : List Message) : Project :=
  { proj with
    name := if jsStartsWith proj.name "Project " then jsReplaceFirst fileName ".zip" "" else proj.name
    filesLoadedCount := some files.length
    savedFiles := files
    savedMessages := msgs }

/-- Definition following the spec sentence for the upload rename (the
archive filename with the `.zip` suffix removed), for comparison with the
source behaviour `jsReplaceFirst fileName ".zip" ""`. -/
def zipSuffixRemoved (fileName : String) : String :=
  if prefixB ".zip".data.reverse fileName.data.reverse then
    ⟨fileName.data.take (fileName.data.length - 4)⟩
  else fileName

/-! ### Conversation accumulator (src/App.tsx, handleSendMessage) -/

/-- The placeholder AI message appended in the Sending phase: fresh id,
empty text, thinking. -/
def placeholderMessage (aiMsgId : String) (now : Nat) : Message :=
  { id := aiMsgId
    text := ""
    sender := Sender.AI
    timestamp := now
    isThinking := true }

/-- One `setMessages(prev => prev.map(...))` chunk update: the message with
the placeholder id gets the accumulated `fullText` and `isThinking: false`;
all other messages are untouched. -/
def applyChunk (aiMsgId : String) (fullText : String) (msgs : List Message) : List Message :=
  msgs.map (fun m => if m.id == aiMsgId then { m with text := fullText, isThinking := false } else m)

/-- One iteration of the `for await (const chunk of streamResponse)` loop,
on the state (message list, `fullText`).  `chunk.text || ''` is modelled by
`Option.getD` with default `""`. -/
def streamStep (aiMsgId : String) (st : List Message × String) (c : Option String) :
    List Message × String :=
  let full := st.2 ++ c.getD ""
  (applyChunk aiMsgId full st.1, full)

/-- The whole streaming loop over a list of arrived chunks, starting from
the message list that already contains the placeholder and `fullText = ''`. -/
def streamRun (msgs : List Message) (aiMsgId : String) (chunks : List (Option String)) :
    List Message × String :=
  chunks.foldl (streamStep aiMsgId) (msgs, "")

/-- The accumulated response text after a list of chunks, starting from a
given `fullText` value. -/
def accFrom (init : String) (chunks : List (Option String)) : String :=
  chunks.foldl (fun a c => a ++ c.getD "") init

/-- The accumulated response text after a list of chunks (`fullText` after
the loop). -/
def accumulated (chunks : List (Option String)) : String :=
  accFrom "" chunks

/-- The SYSTEM error message appended by the catch block of
`handleSendMessage`. -/
def errorMessage (errId errText : String) (now : Nat) : Message :=
  { id := errId
    text := "エラー: " ++ errText
    sender := Sender.SYSTEM
    timestamp := now }

/-- The catch block of `handleSendMessage`: drop every message that is an
still-empty, still-thinking AI placeholder, then append the SYSTEM error
message. -/
def failureCleanup (msgs : List Message) (errId errText : String) (now : Nat) : List Message :=
  (msgs.filter (fun m => !(m.sender == Sender.AI && m.text == "" && m.isThinking)))
    ++ [errorMessage errId errText now]

/-- A message carrying only a timestamp (demo input for the sortedness claim). -/
def tsOnly (i : String) (t : Nat) : Message :=
  { id := i, text := "", sender := Sender.USER, timestamp := t }

/-- Demo snapshot with message timestamps [5, 1, 3]. -/
def demoSnapA : Snapshot :=
  { messages := [tsOnly "a" 5, tsOnly "b" 1, tsOnly "c" 3], files := [] }

/-- Demo snapshot with message timestamps [2, 4]. -/
def demoSnapB : Snapshot :=
  { messages := [tsOnly "d" 2, tsOnly "e" 4], files := [] }

/-- Deduplication of one file list through the path-keyed map. -/
def dedupF (l : List ExtractedFile) : List ExtractedFile :=
  l.foldl mapSet []

/-! ### Helper lemmas: string replace -/

theorem replaceFirstAux_of_not_infixB (p r : List Char) :
    ∀ l : List Char, infixB p l = false → replaceFirstAux p r l = l := by
  intro l
  induction l with
  | nil =>
    intro h
    simp only [infixB] at h
    have hp : prefixB p [] = false := by
      cases p with
      | nil => simp at h
      | cons a as => rfl
    simp [replaceFirstAux, hp]
  | cons c cs ih =>
    intro h
    simp only [infixB, Bool.or_eq_false_iff] at h
    simp [replaceFirstAux, h.1, ih h.2]

theorem jsReplaceFirst_of_not_contains (s pat repl : String)
    (h : containsSub s pat = false) : jsReplaceFirst s pat repl = s := by
  have := replaceFirstAux_of_not_infixB pat.data repl.data s.data h
  simp only [jsReplaceFirst, this]

/-! ### Helper lemmas: stream accumulation -/

theorem accFrom_eq (chunks : List (Option String)) :
    ∀ init : String, accFrom init chunks = init ++ accumulated chunks := by
  induction chunks with
  | nil =>
    intro init
    simp [accFrom, accumulated]
  | cons c cs ih =>
    intro init
    show accFrom (init ++ c.getD "") cs = init ++ accumulated (c :: cs)
    rw [ih (init ++ c.getD "")]
    show _ = init ++ accFrom ("" ++ c.getD "") cs
    rw [ih ("" ++ c.getD "")]
    simp [String.append_assoc]

theorem accumulated_append (l1 l2 : List (Option String)) :
    accumulated (l1 ++ l2) = accumulated l1 ++ accumulated l2 := by
  show (l1 ++ l2).foldl (fun a c => a ++ c.getD "") "" = _
  rw [List.foldl_append]
  exact accFrom_eq l2 (accumulated l1)

theorem streamFold_snd (aiMsgId : String) (chunks : List (Option String)) :
    ∀ st : List Message × String,
      (chunks.foldl (streamStep aiMsgId) st).2 = accFrom st.2 chunks := by
  induction chunks with
  | nil => intro st; rfl
  | cons c cs ih => intro st; exact ih (streamStep aiMsgId st c)

theorem mem_applyChunk {m : Message} {aiMsgId full : String} {msgs : List Message}
    (hm : m ∈ applyChunk aiMsgId full msgs) (hid : m.id = aiMsgId) :
    m.text = full ∧ m.isThinking = false := by
  simp only [applyChunk, List.mem_map] at hm
  obtain ⟨m2, _, heq⟩ := hm
  cases hb : (m2.id == aiMsgId) with
  | true =>
    rw [hb] at heq
    rw [if_pos rfl] at heq
    rw [← heq]
    exact ⟨rfl, rfl⟩
  | false =>
    rw [hb] at heq
    rw [if_neg (by simp)] at heq
    rw [← heq] at hid
    rw [beq_eq_false_iff_ne] at hb
    exact absurd hid hb

theorem streamFold_fst (aiMsgId : String) (chunks : List (Option String)) :
    ∀ st : List Message × String, chunks ≠ [] →
      ∀ m ∈ (chunks.foldl (streamStep aiMsgId) st).1, m.id = aiMsgId →
        m.text = accFrom st.2 chunks ∧ m.isThinking = false := by
  induction chunks with
  | nil => intro st h; exact absurd rfl h
  | cons c cs ih =>
    intro st _ m hm hid
    cases cs with
    | nil => exact mem_applyChunk hm hid
    | cons c2 cs2 => exact ih (streamStep aiMsgId st c) (by simp) m hm hid

theorem streamRun_snd (msgs : List Message) (aiMsgId : String)
    (chunks : List (Option String)) :
    (streamRun msgs aiMsgId chunks).2 = accumulated chunks :=
  streamFold_snd aiMsgId chunks (msgs, "")

theorem streamRun_fst (msgs : List Message) (aiMsgId : String)
    (chunks : List (Option String)) (h : chunks ≠ []) :
    ∀ m ∈ (streamRun msgs aiMsgId chunks).1, m.id = aiMsgId →
      m.text = accumulated chunks ∧ m.isThinking = false :=
  streamFold_fst aiMsgId chunks (msgs, "") h

/-! ### Helper lemmas: failure cleanup -/

theorem countP_filter_of_imp (p q : Message → Bool)
    (h : ∀ m, p m = true → q m = true) :
    ∀ l : List Message, (l.filter q).countP p = l.countP p := by
  intro l
  induction l with
  | nil => rfl
  | cons a l ih =>
    cases hq : q a with
    | true => simp [List.filter_cons, hq, List.countP_cons, ih]
    | false =>
      have hp : p a = false := by
        cases hpa : p a with
        | true => rw [h a hpa] at hq; exact absurd hq (by simp)
        | false => rfl
      simp [List.filter_cons, hq, List.countP_cons, ih, hp]

/-! ### Helper lemmas: retry policy -/

theorem retryOperation_ok {T : Type} (op : Nat → Except JsError T)
    (r delay attempt : Nat) (v : T) (h : op attempt = Except.ok v) :
    retryOperation op r delay attempt = (Except.ok v, attempt + 1, []) := by
  cases r <;> simp [retryOperation, h]

theorem retryOperation_stop {T : Type} (op : Nat → Except JsError T)
    (delay attempt : Nat) (e : JsError) (h : op attempt = Except.error e) :
    retryOperation op 0 delay attempt = (Except.error e, attempt + 1, []) := by
  simp [retryOperation, h]

theorem retryOperation_noquota {T : Type} (op : Nat → Except JsError T)
    (r delay attempt : Nat) (e : JsError) (h : op attempt = Except.error e)
    (hq : isQuotaError e = false) :
    retryOperation op r delay attempt = (Except.error e, attempt + 1, []) := by
  cases r <;> simp [retryOperation, h, hq]

theorem retryOperation_retry {T : Type} (op : Nat → Except JsError T)
    (r delay attempt : Nat) (e : JsError) (h : op attempt = Except.error e)
    (hq : isQuotaError e = true) :
    retryOperation op (r + 1) delay attempt =
      ((retryOperation op r (delay * 2) (attempt + 1)).1,
       (retryOperation op r (delay * 2) (attempt + 1)).2.1,
       delay :: (retryOperation op r (delay * 2) (attempt + 1)).2.2) := by
  simp [retryOperation, h, hq]

/-! ### Helper lemmas: stable sort by timestamp -/

theorem sortByTs_cons (a : Message) (l : List Message) :
    sortByTs (a :: l) = List.orderedInsert tsLe a (sortByTs l) := rfl

theorem filter_orderedInsert (t : Nat) (a : Message) (l : List Message) :
    (List.orderedInsert tsLe a l).filter (fun m => m.timestamp == t)
      = if a.timestamp == t then a :: l.filter (fun m => m.timestamp == t)
        else l.filter (fun m => m.timestamp == t) := by
  induction l with
  | nil =>
    cases hpa : (a.timestamp == t) <;>
      simp [List.orderedInsert, List.filter_cons, hpa]
  | cons b l ih =>
    by_cases hab : tsLe a b
    · rw [List.orderedInsert, if_pos hab]
      cases hpa : (a.timestamp == t) <;> simp [List.filter_cons, hpa]
    · rw [List.orderedInsert, if_neg hab]
      have hba : b.timestamp < a.timestamp := Nat.lt_of_not_le hab
      cases hpa : (a.timestamp == t) with
      | false => simp [List.filter_cons, ih, hpa]
      | true =>
        have hat : a.timestamp = t := beq_iff_eq.mp hpa
        have hpb : (b.timestamp == t) = false := by
          rw [beq_eq_false_iff_ne]
          rw [← hat]
          exact Nat.ne_of_lt hba
        simp [List.filter_cons, ih, hpa, hpb]

theorem filter_sortByTs (t : Nat) (l : List Message) :
    (sortByTs l).filter (fun m => m.timestamp == t)
      = l.filter (fun m => m.timestamp == t) := by
  induction l with
  | nil => rfl
  | cons a l ih =>
    rw [sortByTs_cons, filter_orderedInsert]
    cases hpa : (a.timestamp == t) <;> simp [List.filter_cons, hpa, ih]

theorem sortByTs_sorted (l : List Message) : (sortByTs l).Pairwise tsLe :=
  List.sorted_insertionSort tsLe l

theorem sortByTs_perm (l : List Message) : (sortByTs l).Perm l :=
  List.perm_insertionSort tsLe l

/-! ### Helper lemmas: path-keyed file map -/

theorem map_path_replace (f : ExtractedFile) :
    ∀ acc : List ExtractedFile,
      ((acc.map (fun g => if g.path == f.path then f else g)).map ExtractedFile.path)
        = acc.map ExtractedFile.path := by
  intro acc
  induction acc with
  | nil => rfl
  | cons g gs ih =>
    simp only [List.map_cons]
    cases hg : (g.path == f.path) with
    | true =>
      rw [if_pos rfl, ih, (beq_iff_eq.mp hg).symm]
    | false =>
      rw [if_neg (by simp [hg]), ih]

theorem find?_map_replace (f : ExtractedFile) (p : String) (hfp : f.path ≠ p) :
    ∀ acc : List ExtractedFile,
      ((acc.map (fun g => if g.path == f.path then f else g)).find?
          (fun g => g.path == p))
        = acc.find? (fun g => g.path == p) := by
  intro acc
  have hfpb : (f.path == p) = false := by simp [hfp]
  induction acc with
  | nil => rfl
  | cons g gs ih =>
    simp only [List.map_cons]
    cases hg : (g.path == f.path) with
    | true =>
      have hgp : (g.path == p) = false := by
        simp [beq_iff_eq.mp hg, hfp]
      rw [if_pos rfl]
      simp only [List.find?_cons, hfpb, hgp]
      exact ih
    | false =>
      rw [if_neg (by simp [hg])]
      cases hgp : (g.path == p) with
      | true => simp only [List.find?_cons, hgp]
      | false =>
        simp only [List.find?_cons, hgp]
        exact ih

theorem find?_map_replace_self (f : ExtractedFile) :
    ∀ acc : List ExtractedFile, acc.any (fun g => g.path == f.path) = true →
      ((acc.map (fun g => if g.path == f.path then f else g)).find?
          (fun g => g.path == f.path)) = some f := by
  intro acc
  induction acc with
  | nil => intro h; simp at h
  | cons g gs ih =>
    intro h
    simp only [List.map_cons]
    cases hg : (g.path == f.path) with
    | true =>
      rw [if_pos rfl]
      simp [List.find?_cons]
    | false =>
      rw [if_neg (by simp [hg])]
      simp only [List.find?_cons, hg]
      apply ih
      simpa [List.any_cons, hg] using h

theorem find?_mapSet_self (acc : List ExtractedFile) (f : ExtractedFile) (p : String)
    (hfp : f.path = p) :
    (mapSet acc f).find? (fun g => g.path == p) = some f := by
  subst hfp
  unfold mapSet
  cases hany : acc.any (fun g => g.path == f.path) with
  | true =>
    rw [if_pos rfl]
    exact find?_map_replace_self f acc hany
  | false =>
    rw [if_neg (by simp)]
    have hnone : acc.find? (fun g => g.path == f.path) = none := by
      rw [List.find?_eq_none]
      exact List.any_eq_false.mp hany
    rw [List.find?_append, hnone, Option.none_or]
    simp [List.find?_cons]

theorem find?_mapSet_other (acc : List ExtractedFile) (f : ExtractedFile) (p : String)
    (hfp : f.path ≠ p) :
    (mapSet acc f).find? (fun g => g.path == p)
      = acc.find? (fun g => g.path == p) := by
  unfold mapSet
  cases hany : acc.any (fun g => g.path == f.path) with
  | true =>
    rw [if_pos rfl]
    exact find?_map_replace f p hfp acc
  | false =>
    rw [if_neg (by simp)]
    rw [List.find?_append]
    have hsing : ([f].find? (fun g => g.path == p)) = none := by
      simp [List.find?_cons, hfp]
    rw [hsing, Option.or_none]

theorem foldl_mapSet_find? (p : String) :
    ∀ (l acc : List ExtractedFile),
      (l.foldl mapSet acc).find? (fun g => g.path == p)
        = ((l.filter (fun g => g.path == p)).getLast?).or
            (acc.find? (fun g => g.path == p)) := by
  intro l
  induction l with
  | nil => intro acc; simp
  | cons f fs ih =>
    intro acc
    show (fs.foldl mapSet (mapSet acc f)).find? _ = _
    rw [ih (mapSet acc f)]
    by_cases hf : f.path = p
    · rw [find?_mapSet_self acc f p hf]
      have hfb : (f.path == p) = true := beq_iff_eq.mpr hf
      rw [List.filter_cons, if_pos hfb]
      cases hfs : fs.filter (fun g => g.path == p) with
      | nil => simp
      | cons x xs =>
        rw [List.getLast?_cons_cons]
        obtain ⟨y, hy⟩ : ∃ y, (x :: xs).getLast? = some y := by
          cases h2 : (x :: xs).getLast? with
          | none => exact absurd (List.getLast?_eq_none_iff.mp h2) (by simp)
          | some y => exact ⟨y, rfl⟩
        rw [hy]
        rfl
    · rw [find?_mapSet_other acc f p hf]
      have hfb : (f.path == p) = false := by simp [hf]
      rw [List.filter_cons, if_neg (by simp [hfb])]

theorem dedupF_find? (l : List ExtractedFile) (p : String) :
    (dedupF l).find? (fun g => g.path == p)
      = (l.filter (fun g => g.path == p)).getLast? := by
  have h := foldl_mapSet_find? p l []
  simpa [dedupF, Option.or_none] using h

theorem paths_mapSet_nodup (acc : List ExtractedFile) (f : ExtractedFile)
    (h : (acc.map ExtractedFile.path).Nodup) :
    ((mapSet acc f).map ExtractedFile.path).Nodup := by
  unfold mapSet
  cases hany : acc.any (fun g => g.path == f.path) with
  | true =>
    rw [if_pos rfl, map_path_replace]
    exact h
  | false =>
    rw [if_neg (by simp), List.map_append]
    have hnotin : f.path ∉ acc.map ExtractedFile.path := by
      intro hmem
      obtain ⟨g, hg, hgp⟩ := List.mem_map.mp hmem
      have h2 := List.any_eq_false.mp hany g hg
      simp [hgp] at h2
    simp [List.nodup_append, h, hnotin]

theorem dedupF_nodup (l : List ExtractedFile) :
    ((dedupF l).map ExtractedFile.path).Nodup := by
  suffices h : ∀ acc : List ExtractedFile, (acc.map ExtractedFile.path).Nodup →
      ((l.foldl mapSet acc).map ExtractedFile.path).Nodup by
    exact h [] (by simp)
  induction l with
  | nil => intro acc h; exact h
  | cons f fs ih => intro acc h; exact ih (mapSet acc f) (paths_mapSet_nodup acc f h)

theorem mem_paths_iff_find? (l : List ExtractedFile) (p : String) :
    p ∈ l.map ExtractedFile.path ↔ l.find? (fun g => g.path == p) ≠ none := by
  rw [Ne, List.find?_eq_none]
  constructor
  · intro hmem hall
    obtain ⟨g, hg, hgp⟩ := List.mem_map.mp hmem
    exact hall g hg (by simp [hgp])
  · intro hnall
    by_contra hne
    apply hnall
    intro g hg hb
    exact hne (List.mem_map.mpr ⟨g, hg, beq_iff_eq.mp hb⟩)

theorem dedupF_mem (l : List ExtractedFile) (p : String) :
    p ∈ (dedupF l).map ExtractedFile.path ↔ p ∈ l.map ExtractedFile.path := by
  rw [mem_paths_iff_find? (dedupF l) p, mem_paths_iff_find? l p, dedupF_find?]
  rw [Ne, Ne, List.getLast?_eq_none_iff, List.find?_eq_none, List.filter_eq_nil_iff]

theorem mapSet_append_left (xs acc : List ExtractedFile) (f : ExtractedFile)
    (hf : ∀ g ∈ xs, g.path ≠ f.path) :
    mapSet (xs ++ acc) f = xs ++ mapSet acc f := by
  have hxs : xs.any (fun g => g.path == f.path) = false :=
    List.any_eq_false.mpr (fun g hg => by simp [hf g hg])
  unfold mapSet
  rw [List.any_append, hxs, Bool.false_or]
  have hrepl : xs.map (fun g => if g.path == f.path then f else g) = xs := by
    conv_rhs => rw [← List.map_id xs]
    apply List.map_congr_left
    intro g hg
    rw [if_neg (by simp [hf g hg])]
    rfl
  cases hacc : acc.any (fun g => g.path == f.path) with
  | true =>
    rw [if_pos rfl, if_pos rfl, List.map_append, hrepl]
  | false =>
    rw [if_neg (by simp), if_neg (by simp), List.append_assoc]

theorem foldl_mapSet_append (xs : List ExtractedFile) :
    ∀ (l acc : List ExtractedFile), (∀ f ∈ l, ∀ g ∈ xs, g.path ≠ f.path) →
      l.foldl mapSet (xs ++ acc) = xs ++ l.foldl mapSet acc := by
  intro l
  induction l with
  | nil => intro acc _; rfl
  | cons f fs ih =>
    intro acc h
    show fs.foldl mapSet (mapSet (xs ++ acc) f) = _
    rw [mapSet_append_left xs acc f (fun g hg => h f (by simp) g hg)]
    exact ih (mapSet acc f) (fun f2 hf2 g hg => h f2 (by simp [hf2]) g hg)

theorem dedupF_append_disjoint (l1 l2 : List ExtractedFile)
    (h : ∀ p : String, p ∈ l1.map ExtractedFile.path → p ∉ l2.map ExtractedFile.path) :
    dedupF (l1 ++ l2) = dedupF l1 ++ dedupF l2 := by
  unfold dedupF
  rw [List.foldl_append]
  have hd : ∀ f ∈ l2, ∀ g ∈ (l1.foldl mapSet []), g.path ≠ f.path := by
    intro f hf g hg heq
    have hgp : g.path ∈ (dedupF l1).map ExtractedFile.path :=
      List.mem_map.mpr ⟨g, hg, rfl⟩
    rw [dedupF_mem] at hgp
    apply h g.path hgp
    rw [heq]
    exact List.mem_map.mpr ⟨f, hf, rfl⟩
  have h2 := foldl_mapSet_append (l1.foldl mapSet []) l2 [] hd
  rw [List.append_nil] at h2
  exact h2

theorem mergeFiles_eq_dedupF (sources : List Snapshot) :
    mergeFiles sources = dedupF ((sources.map Snapshot.files).flatten) := rfl

theorem mergeFiles_pair_comm (s t : Snapshot)
    (h : ∀ p : String, p ∈ s.files.map ExtractedFile.path →
        p ∉ t.files.map ExtractedFile.path) :
    (mergeFiles [s, t]).Perm (mergeFiles [t, s]) := by
  have hs : mergeFiles [s, t] = dedupF s.files ++ dedupF t.files := by
    rw [mergeFiles_eq_dedupF]
    have hfl : ([s, t].map Snapshot.files).flatten = s.files ++ t.files := by simp
    rw [hfl]
    exact dedupF_append_disjoint s.files t.files h
  have ht : mergeFiles [t, s] = dedupF t.files ++ dedupF s.files := by
    rw [mergeFiles_eq_dedupF]
    have hfl : ([t, s].map Snapshot.files).flatten = t.files ++ s.files := by simp
    rw [hfl]
    exact dedupF_append_disjoint t.files s.files (fun p hp hq => h p hq hp)
  rw [hs, ht]
  exact List.perm_append_comm

/-! ### Claim theorems -/

/-- C9 (counterexample): the claim "every Project record written by a save
operation has filesLoadedCount equal to the length of its savedFiles array"
fails for project creation: `createNewProject` persists a record whose
`filesLoadedCount` field is not set at all (undefined), not `some 0`, even
though `savedFiles` is the empty array. -/
theorem createNewProject_filesLoadedCount_cex :
    (createNewProjectRecord "p1" 0 1000).filesLoadedCount
      ≠ some (createNewProjectRecord "p1" 0 1000).savedFiles.length := by
  decide

/-- C9 (amended): every Project record written by the project-switch flush
(`saveCurrentProjectToDb`), the archive upload (`handleFileUpload`) or a merge
(`handleMergeProjects`) has `filesLoadedCount = some savedFiles.length`;
the record written by project creation (`createNewProject`) leaves
`filesLoadedCount` unset while its `savedFiles` is empty. -/
theorem filesLoadedCount_consistency (meta proj : Project) (msgs : List Message)
    (files : List ExtractedFile) (fileName pid newName markerId : String)
    (nProjects now : Nat) (sources : List Snapshot) :
    (saveCurrentProjectRecord meta msgs files).filesLoadedCount
        = some (saveCurrentProjectRecord meta msgs files).savedFiles.length
    ∧ (uploadProjectRecord proj fileName files msgs).filesLoadedCount
        = some (uploadProjectRecord proj fileName files msgs).savedFiles.length
    ∧ (mergedProjectRecord pid newName nProjects now
          (mergeProjects sources markerId now)).filesLoadedCount
        = some (mergedProjectRecord pid newName nProjects now
          (mergeProjects sources markerId now)).savedFiles.length
    ∧ (createNewProjectRecord pid nProjects now).filesLoadedCount = none
    ∧ (createNewProjectRecord pid nProjects now).savedFiles = [] :=
  ⟨rfl, rfl, rfl, rfl, rfl⟩

/-- C10 (counterexample): the claim says the project is renamed to the
archive filename with the `.zip` suffix removed, but the source uses JS
`String.replace`, which removes only the first occurrence of `.zip`:
for the upload `a.zipb.zip` into a default-named project the code produces
`ab.zip`, while removing the suffix would produce `a.zipb`. -/
theorem upload_rename_not_suffix_cex :
    ((uploadProjectRecord { id := "p", name := "Project 1", createdAt := 0 }
        "a.zipb.zip" [] []).name = "ab.zip")
    ∧ zipSuffixRemoved "a.zipb.zip" = "a.zipb"
    ∧ ((uploadProjectRecord { id := "p", name := "Project 1", createdAt := 0 }
        "a.zipb.zip" [] []).name ≠ zipSuffixRemoved "a.zipb.zip") := by
  refine ⟨by decide, by decide, by decide⟩

/-- C10 (amended): when an archive is successfully uploaded into the active
project, the display name is changed to the archive filename with the first
occurrence of the substring `.zip` removed iff the current name starts with
the prefix `Project `; any other current name is left unchanged.  When
`.zip` does not occur in the filename at all, the new name is the filename
itself; `myapp.zip` with a default name gives `myapp`. -/
theorem upload_rename_rule (proj : Project) (fileName : String)
    (files : List ExtractedFile) (msgs : List Message) :
    (jsStartsWith proj.name "Project " = true →
        (uploadProjectRecord proj fileName files msgs).name
          = jsReplaceFirst fileName ".zip" "")
    ∧ (jsStartsWith proj.name "Project " = false →
        (uploadProjectRecord proj fileName files msgs).name = proj.name)
    ∧ (containsSub fileName ".zip" = false →
        jsStartsWith proj.name "Project " = true →
        (uploadProjectRecord proj fileName files msgs).name = fileName)
    ∧ ((uploadProjectRecord { id := "p0", name := "Project 2", createdAt := 0 }
        "myapp.zip" [] []).name = "myapp") := by
  refine ⟨?_, ?_, ?_, by decide⟩
  · intro h
    simp [uploadProjectRecord, h]
  · intro h
    simp [uploadProjectRecord, h]
  · intro hc h
    simp [uploadProjectRecord, h, jsReplaceFirst_of_not_contains fileName ".zip" "" hc]

/-- C10 (witness): the amended rename rule at concrete inputs — a default
name is replaced, a custom name is kept, and a filename without `.zip` is
adopted verbatim. -/
theorem upload_rename_rule_witness :
    ((uploadProjectRecord { id := "w", name := "Project 9", createdAt := 0 }
        "demo.zip" [] []).name = jsReplaceFirst "demo.zip" ".zip" "")
    ∧ ((uploadProjectRecord { id := "w", name := "MyName", createdAt := 0 }
        "demo.zip" [] []).name = "MyName")
    ∧ ((uploadProjectRecord { id := "w", name := "Project 9", createdAt := 0 }
        "notes.txt" [] []).name = "notes.txt") :=
  ⟨(upload_rename_rule { id := "w", name := "Project 9", createdAt := 0 }
      "demo.zip" [] []).1 (by decide),
   (upload_rename_rule { id := "w", name := "MyName", createdAt := 0 }
      "demo.zip" [] []).2.1 (by decide),
   (upload_rename_rule { id := "w", name := "Project 9", createdAt := 0 }
      "notes.txt" [] []).2.2.1 (by decide) (by decide)⟩

/-- C8 (code bug): the spec requires pairwise distinct message ids, but
`createNewProject` gives every project's initial message the constant id
`welcome` (all other messages get `crypto.randomUUID()`).  Merging two
freshly created projects therefore yields a conversation whose id list is
`[welcome, welcome, markerId]`, which is not duplicate-free. -/
theorem merged_welcome_id_collision :
    (((mergeProjects [{ messages := [welcomeMessage 10], files := [] },
                      { messages := [welcomeMessage 20], files := [] }]
        "m-1" 30).messages.map Message.id) = ["welcome", "welcome", "m-1"])
    ∧ ¬ (((mergeProjects [{ messages := [welcomeMessage 10], files := [] },
                          { messages := [welcomeMessage 20], files := [] }]
        "m-1" 30).messages.map Message.id).Nodup) := by
  refine ⟨by decide, by decide⟩

/-- C7 (counterexample): the claim says the placeholder keeps
`isThinking = true` for the entire Streaming phase and that the flag is
cleared only when the stream ends; but the chunk-application step of
`handleSendMessage` writes `isThinking: false` on every chunk, so after the
first of three chunks (while the stream is still delivering) the flag is
already false. -/
theorem thinking_cleared_mid_stream_cex :
    ((streamRun [placeholderMessage "ai-1" 10] "ai-1"
        ([some "Hel", some "lo, ", some "world"].take 1)).1
      = [{ id := "ai-1", text := "Hel", sender := Sender.AI, timestamp := 10,
           isThinking := false }])
    ∧ [some "Hel", some "lo, ", some "world"].take 1
        ≠ [some "Hel", some "lo, ", some "world"] := by
  refine ⟨by decide, by decide⟩

/-- C7 (amended): the placeholder is created with `isThinking = true` and
keeps it through the Sending phase (before any chunk arrives); the very
first applied chunk — and every later one — writes `isThinking = false`, so
after any non-empty sequence of chunks the message carrying the placeholder
id is no longer thinking (rather than only at stream end). -/
theorem thinking_true_until_first_chunk (msgs : List Message) (aiMsgId : String)
    (now : Nat) (chunks : List (Option String)) (h : chunks ≠ []) :
    (placeholderMessage aiMsgId now).isThinking = true
    ∧ ∀ m ∈ (streamRun (msgs ++ [placeholderMessage aiMsgId now]) aiMsgId chunks).1,
        m.id = aiMsgId → m.isThinking = false := by
  refine ⟨rfl, ?_⟩
  intro m hm hid
  exact (streamRun_fst (msgs ++ [placeholderMessage aiMsgId now]) aiMsgId chunks h
    m hm hid).2

/-- C7 (witness): the amended property at a concrete input — a placeholder
behind one earlier message, with a two-chunk stream. -/
theorem thinking_true_until_first_chunk_witness :
    (placeholderMessage "ai-9" 42).isThinking = true
    ∧ ∀ m ∈ (streamRun ([tsOnly "u" 41] ++ [placeholderMessage "ai-9" 42]) "ai-9"
        [some "a", some "b"]).1,
        m.id = "ai-9" → m.isThinking = false :=
  thinking_true_until_first_chunk [tsOnly "u" 41] "ai-9" 42 [some "a", some "b"]
    (by decide)

/-- C2: when a send fails with a terminal error, the catch block of
`handleSendMessage` removes every still-empty, still-thinking AI placeholder
and appends exactly one SYSTEM message carrying the error text.  The
hypothesis is the reachable-state invariant that any thinking message with
empty text is the AI placeholder (every SYSTEM or USER message the app
creates has non-empty text).  Afterwards no message with
`isThinking = true` and empty text remains, the SYSTEM-message count rises
by exactly one, the appended SYSTEM error message is last, and no
placeholder at all survives. -/
theorem failureCleanup_no_dangling_placeholder (msgs : List Message)
    (errId errText : String) (now : Nat)
    (h : ∀ m ∈ msgs, m.isThinking = true → m.text = "" → m.sender = Sender.AI) :
    (∀ m ∈ failureCleanup msgs errId errText now,
        m.isThinking = true → m.text ≠ "")
    ∧ ((failureCleanup msgs errId errText now).countP
          (fun m => m.sender == Sender.SYSTEM)
        = msgs.countP (fun m => m.sender == Sender.SYSTEM) + 1)
    ∧ (failureCleanup msgs errId errText now).getLast?
        = some (errorMessage errId errText now)
    ∧ ∀ aid : String, ∀ ts : Nat,
        placeholderMessage aid ts ∉ failureCleanup msgs errId errText now := by
  refine ⟨?_, ?_, ?_, ?_⟩
  · intro m hm hthink htext
    rcases List.mem_append.mp hm with hfil | herr
    · obtain ⟨hmem, hkeep⟩ := List.mem_filter.mp hfil
      have hai := h m hmem hthink htext
      simp [hai, htext, hthink] at hkeep
    · simp only [List.mem_singleton] at herr
      rw [herr] at hthink
      simp [errorMessage] at hthink
  · unfold failureCleanup
    rw [List.countP_append]
    have hone : ([errorMessage errId errText now].countP
        (fun m => m.sender == Sender.SYSTEM)) = 1 := by
      simp [List.countP_cons, errorMessage]
    rw [hone]
    have hkeep := countP_filter_of_imp (fun m => m.sender == Sender.SYSTEM)
      (fun m => !(m.sender == Sender.AI && m.text == "" && m.isThinking))
      (fun m hp => by
        have hs : m.sender = Sender.SYSTEM := beq_iff_eq.mp hp
        simp [hs])
      msgs
    rw [hkeep]
  · exact List.getLast?_concat _
  · intro aid ts hmem
    rcases List.mem_append.mp hmem with hfil | herr
    · obtain ⟨_, hkeep⟩ := List.mem_filter.mp hfil
      simp [placeholderMessage] at hkeep
    · simp only [List.mem_singleton] at herr
      have : (placeholderMessage aid ts).isThinking = (errorMessage errId errText now).isThinking := by
        rw [herr]
      simp [placeholderMessage, errorMessage] at this

/-- C2 (witness): the cleanup at a concrete conversation holding a user
message and an empty thinking placeholder. -/
theorem failureCleanup_no_dangling_placeholder_witness :
    (∀ m ∈ failureCleanup [tsOnly "u" 1, placeholderMessage "ai" 2] "e1" "boom" 3,
        m.isThinking = true → m.text ≠ "")
    ∧ ((failureCleanup [tsOnly "u" 1, placeholderMessage "ai" 2] "e1" "boom" 3).countP
          (fun m => m.sender == Sender.SYSTEM)
        = ([tsOnly "u" 1, placeholderMessage "ai" 2].countP
            (fun m => m.sender == Sender.SYSTEM)) + 1)
    ∧ (failureCleanup [tsOnly "u" 1, placeholderMessage "ai" 2] "e1" "boom" 3).getLast?
        = some (errorMessage "e1" "boom" 3)
    ∧ ∀ aid : String, ∀ ts : Nat,
        placeholderMessage aid ts
          ∉ failureCleanup [tsOnly "u" 1, placeholderMessage "ai" 2] "e1" "boom" 3 :=
  failureCleanup_no_dangling_placeholder [tsOnly "u" 1, placeholderMessage "ai" 2]
    "e1" "boom" 3 (by decide)

/-- C6: the streamed response accumulates by concatenating each chunk's text
(`chunk.text || ''`) in arrival order.  The text after `i` arrived chunks is
`accumulated (chunks.take i)`; it is a prefix of the text after any later
chunk and its length never shrinks; the loop's `fullText` equals the full
accumulation; the message carrying the placeholder id holds exactly that
text once at least one chunk has been applied; and the chunks
`[Hel, lo-comma-space, world]` yield `Hello, world`. -/
theorem stream_accumulation (chunks : List (Option String)) (msgs : List Message)
    (aiMsgId : String) :
    (∀ i j : Nat, i ≤ j → ∃ rest : String,
        accumulated (chunks.take j) = accumulated (chunks.take i) ++ rest)
    ∧ (∀ i j : Nat, i ≤ j →
        (accumulated (chunks.take i)).length ≤ (accumulated (chunks.take j)).length)
    ∧ ((streamRun msgs aiMsgId chunks).2 = accumulated chunks)
    ∧ (chunks ≠ [] → ∀ m ∈ (streamRun msgs aiMsgId chunks).1, m.id = aiMsgId →
        m.text = accumulated chunks)
    ∧ accumulated [some "Hel", some "lo, ", some "world"] = "Hello, world" := by
  have hpre : ∀ i j : Nat, i ≤ j → ∃ rest : String,
      accumulated (chunks.take j) = accumulated (chunks.take i) ++ rest := by
    intro i j hij
    have htake : chunks.take i = (chunks.take j).take i := by
      rw [List.take_take, Nat.min_eq_left hij]
    obtain ⟨t, ht⟩ := List.take_prefix i (chunks.take j)
    refine ⟨accumulated t, ?_⟩
    rw [← ht, accumulated_append, htake]
  refine ⟨hpre, ?_, streamRun_snd msgs aiMsgId chunks, ?_, by decide⟩
  · intro i j hij
    obtain ⟨rest, hrest⟩ := hpre i j hij
    rw [hrest, String.length_append]
    exact Nat.le_add_right _ _
  · intro h m hm hid
    exact (streamRun_fst msgs aiMsgId chunks h m hm hid).1

/-- C6 (witness): the accumulation facts at the concrete three-chunk stream
of the spec example. -/
theorem stream_accumulation_witness :
    (∃ rest : String,
        accumulated ([some "Hel", some "lo, ", some "world"].take 2)
          = accumulated ([some "Hel", some "lo, ", some "world"].take 1) ++ rest)
    ∧ ((accumulated ([some "Hel", some "lo, ", some "world"].take 1)).length
        ≤ (accumulated ([some "Hel", some "lo, ", some "world"].take 2)).length)
    ∧ (∀ m ∈ (streamRun [placeholderMessage "ai" 7] "ai"
          [some "Hel", some "lo, ", some "world"]).1,
        m.id = "ai" → m.text = accumulated [some "Hel", some "lo, ", some "world"]) :=
  ⟨(stream_accumulation [some "Hel", some "lo, ", some "world"]
      [placeholderMessage "ai" 7] "ai").1 1 2 (by decide),
   (stream_accumulation [some "Hel", some "lo, ", some "world"]
      [placeholderMessage "ai" 7] "ai").2.1 1 2 (by decide),
   (stream_accumulation [some "Hel", some "lo, ", some "world"]
      [placeholderMessage "ai" 7] "ai").2.2.2.1 (by decide)⟩

/-- C3: the messages of a merge of at least 2 snapshots are, marker
excluded, the concatenation of all snapshots' message lists stably sorted
by timestamp ascending: the list (dropLast) is exactly the stable sort,
it is pairwise nondecreasing in timestamp, it is a permutation of the
concatenation, equal-timestamp messages keep the concatenation order
(filter at each timestamp is unchanged), and the demo inputs with
timestamps [5, 1, 3] and [2, 4] come out ordered [1, 2, 3, 4, 5]. -/
theorem mergeProjects_messages_stable_sorted (sources : List Snapshot)
    (markerId : String) (now : Nat) (h2 : 2 ≤ sources.length) :
    ((mergeProjects sources markerId now).messages.dropLast
        = sortByTs ((sources.map Snapshot.messages).flatten))
    ∧ ((mergeProjects sources markerId now).messages.dropLast).Pairwise tsLe
    ∧ ((mergeProjects sources markerId now).messages.dropLast).Perm
        ((sources.map Snapshot.messages).flatten)
    ∧ (∀ t : Nat, ((mergeProjects sources markerId now).messages.dropLast).filter
          (fun m => m.timestamp == t)
        = ((sources.map Snapshot.messages).flatten).filter
          (fun m => m.timestamp == t))
    ∧ (((mergeProjects [demoSnapA, demoSnapB] "m0" 100).messages.dropLast).map
        Message.timestamp = [1, 2, 3, 4, 5]) := by
  have hdrop : (mergeProjects sources markerId now).messages.dropLast
      = sortByTs ((sources.map Snapshot.messages).flatten) := by
    show (sortByTs _ ++ [mergeMarker _ _ _]).dropLast = _
    rw [List.dropLast_concat]
  refine ⟨hdrop, ?_, ?_, ?_, by decide⟩
  · rw [hdrop]
    exact sortByTs_sorted _
  · rw [hdrop]
    exact sortByTs_perm _
  · intro t
    rw [hdrop]
    exact filter_sortByTs t _

/-- C3 (witness): sortedness and permutation of the marker-stripped merge
at the demo snapshots. -/
theorem mergeProjects_messages_stable_sorted_witness :
    ((mergeProjects [demoSnapA, demoSnapB] "m0" 100).messages.dropLast).Pairwise tsLe
    ∧ ((mergeProjects [demoSnapA, demoSnapB] "m0" 100).messages.dropLast).Perm
        (([demoSnapA, demoSnapB].map Snapshot.messages).flatten) :=
  ⟨(mergeProjects_messages_stable_sorted [demoSnapA, demoSnapB] "m0" 100
      (by decide)).2.1,
   (mergeProjects_messages_stable_sorted [demoSnapA, demoSnapB] "m0" 100
      (by decide)).2.2.1⟩

/-- C5: the synthetic SYSTEM merge marker is the last element of the merged
message list, and — since every input message was stamped by an earlier
`Date.now()` than the merge time (the clock hypothesis) — its timestamp is
greater than or equal to the timestamp of every message in the merged
conversation. -/
theorem mergeProjects_marker_last (sources : List Snapshot) (markerId : String)
    (now : Nat) (h2 : 2 ≤ sources.length)
    (hclock : ∀ m ∈ (sources.map Snapshot.messages).flatten, m.timestamp ≤ now) :
    (mergeProjects sources markerId now).messages.getLast?
        = some (mergeMarker sources.length markerId now)
    ∧ ∀ m ∈ (mergeProjects sources markerId now).messages,
        m.timestamp ≤ (mergeMarker sources.length markerId now).timestamp := by
  constructor
  · exact List.getLast?_concat _
  · intro m hm
    rcases List.mem_append.mp hm with hs | hmark
    · exact hclock m ((sortByTs_perm _).mem_iff.mp hs)
    · simp only [List.mem_singleton] at hmark
      rw [hmark]

/-- C5 (witness): marker last and maximal at the demo snapshots merged at
time 100. -/
theorem mergeProjects_marker_last_witness :
    (mergeProjects [demoSnapA, demoSnapB] "m0" 100).messages.getLast?
        = some (mergeMarker ([demoSnapA, demoSnapB] : List Snapshot).length "m0" 100)
    ∧ ∀ m ∈ (mergeProjects [demoSnapA, demoSnapB] "m0" 100).messages,
        m.timestamp
          ≤ (mergeMarker ([demoSnapA, demoSnapB] : List Snapshot).length "m0" 100).timestamp :=
  mergeProjects_marker_last [demoSnapA, demoSnapB] "m0" 100 (by decide) (by decide)

/-- C4: the merged file set holds each input path exactly once (the path
list is duplicate-free and a path appears in the output iff it appears in
some input); the record stored at a path is the last write in input order
(the last entry with that path in the flattened input); merging a : 1 then
a : 2 yields exactly a : 2; and for two snapshots with disjoint path sets
the resulting file set is the same (a permutation) under either order. -/
theorem mergeFiles_last_write_wins (sources : List Snapshot) :
    ((mergeFiles sources).map ExtractedFile.path).Nodup
    ∧ (∀ p : String, p ∈ (mergeFiles sources).map ExtractedFile.path
        ↔ p ∈ ((sources.map Snapshot.files).flatten).map ExtractedFile.path)
    ∧ (∀ p : String, (mergeFiles sources).find? (fun f => f.path == p)
        = (((sources.map Snapshot.files).flatten).filter
            (fun f => f.path == p)).getLast?)
    ∧ (mergeFiles [{ messages := [], files := [{ path := "a", content := "1" }] },
                   { messages := [], files := [{ path := "a", content := "2" }] }]
        = [{ path := "a", content := "2" }])
    ∧ (∀ s t : Snapshot,
        (∀ p : String, p ∈ s.files.map ExtractedFile.path →
            p ∉ t.files.map ExtractedFile.path) →
        (mergeFiles [s, t]).Perm (mergeFiles [t, s])) := by
  refine ⟨?_, ?_, ?_, by decide, fun s t h => mergeFiles_pair_comm s t h⟩
  · rw [mergeFiles_eq_dedupF]
    exact dedupF_nodup _
  · intro p
    rw [mergeFiles_eq_dedupF]
    exact dedupF_mem _ p
  · intro p
    rw [mergeFiles_eq_dedupF]
    exact dedupF_find? _ p

/-- C4 (witness): order-independence of the merged file set for two
concrete snapshots with disjoint paths. -/
theorem mergeFiles_last_write_wins_witness :
    (mergeFiles [{ messages := [], files := [{ path := "x", content := "1" }] },
                 { messages := [], files := [{ path := "y", content := "2" }] }]).Perm
      (mergeFiles [{ messages := [], files := [{ path := "y", content := "2" }] },
                   { messages := [], files := [{ path := "x", content := "1" }] }]) :=
  (mergeFiles_last_write_wins []).2.2.2.2
    { messages := [], files := [{ path := "x", content := "1" }] }
    { messages := [], files := [{ path := "y", content := "2" }] }
    (by intro p hp; simp at hp; rw [hp]; decide)

/-- C1: `retryOperation` at its defaults (3 retries, 2000 ms initial delay)
(1) propagates a non-quota error immediately and unmodified after exactly
one attempt with no waiting; (2) on persistent quota errors waits the
doubling backoffs 2000, 4000, 8000 ms, makes 1 + 3 = 4 attempts, and
re-throws the error of the last attempt unmodified; (3) an operation that
fails with quota errors on attempts 0 and 1 and succeeds on attempt 2
completes successfully with exactly 3 total attempts after waiting 2000 and
4000 ms — and since part (3) constrains the operation only at attempts
0..2, any operation agreeing there gives the same outcome: nothing is
called after the success. -/
theorem retryOperation_policy {T : Type} (op : Nat → Except JsError T) :
    (∀ e : JsError, op 0 = Except.error e → isQuotaError e = false →
        retryOperationDefault op = (Except.error e, 1, []))
    ∧ (∀ err : Nat → JsError, (∀ k, k ≤ 3 → op k = Except.error (err k)) →
        (∀ k, k ≤ 3 → isQuotaError (err k) = true) →
        retryOperationDefault op = (Except.error (err 3), 4, [2000, 4000, 8000]))
    ∧ (∀ (e0 e1 : JsError) (v : T), op 0 = Except.error e0 → isQuotaError e0 = true →
        op 1 = Except.error e1 → isQuotaError e1 = true → op 2 = Except.ok v →
        retryOperationDefault op = (Except.ok v, 3, [2000, 4000])) := by
  refine ⟨?_, ?_, ?_⟩
  · intro e h0 hq
    exact retryOperation_noquota op 3 2000 0 e h0 hq
  · intro err herr hq
    have h0 := herr 0 (by norm_num)
    have h1 := herr 1 (by norm_num)
    have h2 := herr 2 (by norm_num)
    have h3 := herr 3 (by norm_num)
    have q0 := hq 0 (by norm_num)
    have q1 := hq 1 (by norm_num)
    have q2 := hq 2 (by norm_num)
    have t3 : retryOperation op 0 16000 3 = (Except.error (err 3), 4, []) :=
      retryOperation_stop op 16000 3 (err 3) h3
    have t2 : retryOperation op 1 8000 2 = (Except.error (err 3), 4, [8000]) := by
      show retryOperation op (0 + 1) 8000 2 = _
      rw [retryOperation_retry op 0 8000 2 (err 2) h2 q2]
      rw [show (8000 * 2 : Nat) = 16000 from rfl, show (2 + 1 : Nat) = 3 from rfl, t3]
    have t1 : retryOperation op 2 4000 1 = (Except.error (err 3), 4, [4000, 8000]) := by
      show retryOperation op (1 + 1) 4000 1 = _
      rw [retryOperation_retry op 1 4000 1 (err 1) h1 q1]
      rw [show (4000 * 2 : Nat) = 8000 from rfl, show (1 + 1 : Nat) = 2 from rfl, t2]
    show retryOperation op (2 + 1) 2000 0 = _
    rw [retryOperation_retry op 2 2000 0 (err 0) h0 q0]
    rw [show (2000 * 2 : Nat) = 4000 from rfl, show (0 + 1 : Nat) = 1 from rfl, t1]
  · intro e0 e1 v h0 q0 h1 q1 h2v
    have t2 : retryOperation op 1 8000 2 = (Except.ok v, 3, []) :=
      retryOperation_ok op 1 8000 2 v h2v
    have t1 : retryOperation op 2 4000 1 = (Except.ok v, 3, [4000]) := by
      show retryOperation op (1 + 1) 4000 1 = _
      rw [retryOperation_retry op 1 4000 1 e1 h1 q1]
      rw [show (4000 * 2 : Nat) = 8000 from rfl, show (1 + 1 : Nat) = 2 from rfl, t2]
    show retryOperation op (2 + 1) 2000 0 = _
    rw [retryOperation_retry op 2 2000 0 e0 h0 q0]
    rw [show (2000 * 2 : Nat) = 4000 from rfl, show (0 + 1 : Nat) = 1 from rfl, t1]

/-- C1 (witness): the three retry behaviours at concrete operations — a
constant non-quota failure, a constant 429 failure, and an operation that
throws 429 twice and then returns 7. -/
theorem retryOperation_policy_witness :
    retryOperationDefault (fun _ => (Except.error { status := none, message := "boom" }
        : Except JsError Nat))
      = (Except.error { status := none, message := "boom" }, 1, [])
    ∧ retryOperationDefault (fun _ => (Except.error { status := some 429, message := "" }
        : Except JsError Nat))
      = (Except.error { status := some 429, message := "" }, 4, [2000, 4000, 8000])
    ∧ retryOperationDefault (fun k => if k < 2
        then (Except.error { status := some 429, message := "" } : Except JsError Nat)
        else Except.ok 7)
      = (Except.ok 7, 3, [2000, 4000]) :=
  ⟨(retryOperation_policy (fun _ => Except.error { status := none, message := "boom" })).1
      { status := none, message := "boom" } rfl (by decide),
   (retryOperation_policy (fun _ => Except.error { status := some 429, message := "" })).2.1
      (fun _ => { status := some 429, message := "" })
      (fun k hk => rfl)
      (fun k hk =>
        (by decide : isQuotaError { status := some 429, message := "" } = true)),
   (retryOperation_policy (fun k => if k < 2
        then (Except.error { status := some 429, message := "" } : Except JsError Nat)
        else Except.ok 7)).2.2
      { status := some 429, message := "" } { status := some 429, message := "" } 7
      rfl (by decide) rfl (by decide) rfl⟩
